import Mathlib

/-!
Verification of the FitnessTracker persistence layer.

This file gives a shallow embedding, in Lean 4, of the storage code of the
fitness-tracking application:

* `src/shared/schema.ts` — the entity record types;
* `src/server/storage.ts` — `MemStorage`, the in-memory implementation
  (JavaScript `Map`s keyed by numeric id, modelled as insertion-ordered
  association lists);
* `src/unnamed/part_010` — `SQLiteStorage`, the SQL-backed implementation
  (tables modelled as row lists; `ORDER BY` and the JavaScript stable
  `Array.prototype.sort` are both modelled with the stable
  `List.insertionSort`);
* `src/server/db.ts` — `DatabaseStorage`, the query-builder-backed
  implementation.

Numeric measurement values are modelled as integers, timestamps as natural
numbers (epoch milliseconds, the value produced by `new Date(x).getTime()`),
and strings of column keys as lists of Unicode code points.  Fallible
operations return `Except String`; a thrown JavaScript error is `Except.error`.
-/

namespace FitnessTracker

/-- Measurement record, from `measurements` in `src/shared/schema.ts`:
id, user_id, type, value (REAL, modelled as an integer), unit, date. -/
structure Measurement where
  id : Nat
  userId : Nat
  type : String
  value : Int
  unit : String
  date : Nat
deriving Repr, DecidableEq

/-- MeasurementWithChange, from `src/shared/schema.ts`: a `Measurement`
together with the optional derived `change` field. -/
structure MeasurementWithChange where
  m : Measurement
  change : Option Int
deriving Repr, DecidableEq

/-- Partial<Measurement>: an update object in which every field is optional,
as received by `updateMeasurement`. -/
structure MeasurementPatch where
  id : Option Nat := none
  userId : Option Nat := none
  type : Option String := none
  value : Option Int := none
  unit : Option String := none
  date : Option Nat := none
deriving Repr, DecidableEq

/-- Exercise catalog record, from `exercises` in `src/shared/schema.ts`. -/
structure Exercise where
  id : Nat
  name : String
  category : Option String
  description : Option String
deriving Repr, DecidableEq

/-- WorkoutProgram record, from `workout_programs` in `src/shared/schema.ts`. -/
structure WorkoutProgram where
  id : Nat
  userId : Nat
  name : String
  description : Option String
  colorScheme : Option String
  estimatedDuration : Option String
deriving Repr, DecidableEq

/-- WorkoutExercise link record, from `workout_exercises`: it links a program
to an exercise and carries the sequence position stored in the `"order"`
column (the field the storage layer sorts by). -/
structure WorkoutExercise where
  id : Nat
  workoutProgramId : Nat
  exerciseId : Nat
  sets : Option Int
  reps : Option Int
  duration : Option String
  order : Int
deriving Repr, DecidableEq

/-- Result element of `getWorkoutExercises`: a link joined with its exercise
(the TypeScript type `WorkoutExercise & \x7b exercise: Exercise \x7d`). -/
structure WorkoutExerciseJoined where
  we : WorkoutExercise
  exercise : Exercise
deriving Repr, DecidableEq

/-- WorkoutLog record, from `workout_logs` in `src/shared/schema.ts`. -/
structure WorkoutLog where
  id : Nat
  userId : Nat
  workoutProgramId : Nat
  date : Nat
  completed : Bool
deriving Repr, DecidableEq

/-- InsertWorkoutLog: the insert shape for workout logs; `completed` is
optional and the column default is `false`. -/
structure InsertWorkoutLog where
  userId : Nat
  workoutProgramId : Nat
  date : Nat
  completed : Option Bool := none
deriving Repr, DecidableEq

/-! ### JavaScript `Map` model

`MemStorage` keeps each entity kind in a `Map<number, T>`.  A JavaScript
`Map` preserves insertion order; `set` on an existing key overwrites the
entry in place, and `Array.from(map.values())` lists values in insertion
order.  We model it as an insertion-ordered association list. -/

/-- Association-list model of `Map<number, α>`. -/
abbrev MMap (α : Type) := List (Nat × α)

/-- Model of `map.get(k)`. -/
def mget (m : MMap α) (k : Nat) : Option α :=
  (m.find? (fun kv => decide (kv.1 = k))).map (·.2)

/-- Model of `map.set(k, v)`: overwrite in place if the key is present,
otherwise append. -/
def mset (m : MMap α) (k : Nat) (v : α) : MMap α :=
  match m with
  | [] => [(k, v)]
  | kv :: rest => if kv.1 = k then (k, v) :: rest else kv :: mset rest k v

/-- Model of `map.delete(k)`: remove the entry and report whether it was
present (the boolean `Map.prototype.delete` returns). -/
def mdelete (m : MMap α) (k : Nat) : MMap α × Bool :=
  (m.filter (fun kv => decide (kv.1 ≠ k)), (m.find? (fun kv => decide (kv.1 = k))).isSome)

/-- Model of `Array.from(map.values())`. -/
def mvalues (m : MMap α) : List α := m.map (·.2)

/-! ### Stable sorts

Every sort in the source is either SQL `ORDER BY` or the (stable, since
ES2019) `Array.prototype.sort` with a numeric comparator.  Both are modelled
by the stable `List.insertionSort`; a stable sort's output is determined by
the comparator and the input order, so any stable sort is a faithful model. -/

/-- Comparator `(a, b) => new Date(b.date).getTime() - new Date(a.date).getTime()`:
descending by date. -/
def dateGE (a b : Measurement) : Prop := b.date ≤ a.date

instance : DecidableRel dateGE := fun a b => Nat.decLe _ _

instance : IsTotal Measurement dateGE := ⟨fun a b => Nat.le_total b.date a.date⟩

instance : IsTrans Measurement dateGE := ⟨fun _ _ _ h h' => Nat.le_trans h' h⟩

/-- Descending-by-date comparator on augmented measurements (the final
re-sort in `getMeasurementsWithChange`). -/
def wcDateGE (a b : MeasurementWithChange) : Prop := b.m.date ≤ a.m.date

instance : DecidableRel wcDateGE := fun a b => Nat.decLe _ _

instance : IsTotal MeasurementWithChange wcDateGE := ⟨fun a b => Nat.le_total b.m.date a.m.date⟩

instance : IsTrans MeasurementWithChange wcDateGE := ⟨fun _ _ _ h h' => Nat.le_trans h' h⟩

/-- Comparator `(a, b) => a.order - b.order`: ascending by sequence position. -/
def orderLE (a b : WorkoutExercise) : Prop := a.order ≤ b.order

instance : DecidableRel orderLE := fun a b => Int.decLe _ _

instance : IsTotal WorkoutExercise orderLE := ⟨fun a b => Int.le_total a.order b.order⟩

instance : IsTrans WorkoutExercise orderLE := ⟨fun _ _ _ h h' => Int.le_trans h h'⟩

/-- Ascending-by-order comparator on joined rows (`ORDER BY we."order"`). -/
def jorderLE (a b : WorkoutExerciseJoined) : Prop := a.we.order ≤ b.we.order

instance : DecidableRel jorderLE := fun a b => Int.decLe _ _

instance : IsTotal WorkoutExerciseJoined jorderLE := ⟨fun a b => Int.le_total a.we.order b.we.order⟩

instance : IsTrans WorkoutExerciseJoined jorderLE := ⟨fun _ _ _ h h' => Int.le_trans h h'⟩

/-- Sort measurements newest first. -/
def sortByDateDesc (l : List Measurement) : List Measurement := l.insertionSort dateGE

/-- Sort augmented measurements newest first. -/
def sortWCByDateDesc (l : List MeasurementWithChange) : List MeasurementWithChange :=
  l.insertionSort wcDateGE

/-- Sort links ascending by sequence position. -/
def sortByOrderAsc (l : List WorkoutExercise) : List WorkoutExercise := l.insertionSort orderLE

/-- Sort joined rows ascending by sequence position. -/
def sortJoinedByOrderAsc (l : List WorkoutExerciseJoined) : List WorkoutExerciseJoined :=
  l.insertionSort jorderLE

/-! ### Measurement reads -/

/-- MemStorage.getMeasurements (`src/server/storage.ts` 127-137): filter the
map's values by owner, sort descending by date, then filter by type when one
is given. -/
def memGetMeasurements (store : MMap Measurement) (userId : Nat) (ty : Option String) :
    List Measurement :=
  let sorted := sortByDateDesc ((mvalues store).filter (fun m => decide (m.userId = userId)))
  match ty with
  | some t => sorted.filter (fun m => decide (m.type = t))
  | none => sorted

/-- The per-index change computation shared by
`MemStorage.getMeasurementsWithChange` (`src/server/storage.ts` 146-155) and
the per-type loop of the SQL implementations: position `i` gets
`value[i] - value[i+1]`, and the last position gets no change. -/
def withChange : List Measurement → List MeasurementWithChange
  | [] => []
  | [m] => [⟨m, none⟩]
  | m :: next :: rest => ⟨m, some (m.value - next.value)⟩ :: withChange (next :: rest)

/-- MemStorage.getMeasurementsWithChange (`src/server/storage.ts` 143-156):
the adjacent-difference computation applied to the whole date-sorted list,
with no grouping by measurement type. -/
def memGetMeasurementsWithChange (store : MMap Measurement) (userId : Nat) (ty : Option String) :
    List MeasurementWithChange :=
  withChange (memGetMeasurements store userId ty)

/-- SQLiteStorage.getMeasurements (`src/unnamed/part_010` 53-70):
`SELECT * FROM measurements WHERE user_id = ? [AND type = ?] ORDER BY date DESC`. -/
def sqGetMeasurements (table : List Measurement) (userId : Nat) (ty : Option String) :
    List Measurement :=
  sortByDateDesc (table.filter (fun m =>
    decide (m.userId = userId) && match ty with
      | some t => decide (m.type = t)
      | none => true))

/-- Keys of a JavaScript object in insertion order: the first occurrence of
each key, later duplicates dropped. -/
def dedupKeys : List String → List String
  | [] => []
  | t :: rest => t :: (dedupKeys rest).filter (fun s => decide (s ≠ t))

/-- The `measurementsByType` record built in
`SQLiteStorage.getMeasurementsWithChange` (`src/unnamed/part_010` 85-93) and
`DatabaseStorage.getMeasurementsWithChange` (`src/server/db.ts`): each type
key, in first-appearance order, mapped to all records of that type in list
order. -/
def groupByType (ms : List Measurement) : List (String × List Measurement) :=
  (dedupKeys (ms.map (·.type))).map (fun t => (t, ms.filter (fun m => decide (m.type = t))))

/-- SQLiteStorage.getMeasurementsWithChange (`src/unnamed/part_010` 82-123)
and the identically-written DatabaseStorage.getMeasurementsWithChange
(`src/server/db.ts` 237-278): group by type, sort each group descending by
date, compute per-neighbour changes inside the group, concatenate the groups,
and re-sort the whole result descending by date. -/
def getMeasurementsWithChangeGrouped (table : List Measurement) (userId : Nat)
    (ty : Option String) : List MeasurementWithChange :=
  let ms := sqGetMeasurements table userId ty
  sortWCByDateDesc ((groupByType ms).flatMap (fun g => withChange (sortByDateDesc g.2)))

/-! ### Measurement updates and deletes -/

/-- The JavaScript spread `\x7b ...m, ...patch \x7d`: every field present in the
patch overrides the record's field, including `id`. -/
def applyPatch (m : Measurement) (p : MeasurementPatch) : Measurement :=
  { id := p.id.getD m.id
    userId := p.userId.getD m.userId
    type := p.type.getD m.type
    value := p.value.getD m.value
    unit := p.unit.getD m.unit
    date := p.date.getD m.date }

/-- MemStorage.updateMeasurement (`src/server/storage.ts` 165-174): look the
record up, return `none` when absent, otherwise overwrite the map entry with
the spread of the record and the whole patch. -/
def memUpdateMeasurement (store : MMap Measurement) (id : Nat) (p : MeasurementPatch) :
    MMap Measurement × Option Measurement :=
  match mget store id with
  | none => (store, none)
  | some m =>
      let updated := applyPatch m p
      (mset store id updated, some updated)

/-- MemStorage.deleteMeasurement (`src/server/storage.ts` 176-178):
`this.measurements.delete(id)`. -/
def memDeleteMeasurement (store : MMap Measurement) (id : Nat) : MMap Measurement × Bool :=
  mdelete store id

/-- Application of the non-`id` assignments built by
`SQLiteStorage.updateMeasurement`'s entries loop, which pushes
`toSnakeCase(key) = ?` for every patch entry except `id`. -/
def sqApplyUpdate (m : Measurement) (p : MeasurementPatch) : Measurement :=
  { m with
    userId := p.userId.getD m.userId
    type := p.type.getD m.type
    value := p.value.getD m.value
    unit := p.unit.getD m.unit
    date := p.date.getD m.date }

/-- Number of `updateParts` entries `SQLiteStorage.updateMeasurement` builds:
one per present patch field other than `id`. -/
def sqPatchSize (p : MeasurementPatch) : Nat :=
  (if p.userId.isSome then 1 else 0) + (if p.type.isSome then 1 else 0) +
  (if p.value.isSome then 1 else 0) + (if p.unit.isSome then 1 else 0) +
  (if p.date.isSome then 1 else 0)

/-- SQLiteStorage.updateMeasurement (`src/unnamed/part_010` 157-188): fetch
the current row (`undefined` when absent), skip the `id` key while building
the assignment list, return the unchanged current row when no assignment
remains, otherwise run `UPDATE ... SET ... WHERE id = ? RETURNING *`. -/
def sqUpdateMeasurement (table : List Measurement) (id : Nat) (p : MeasurementPatch) :
    List Measurement × Except String (Option Measurement) :=
  match table.find? (fun m => decide (m.id = id)) with
  | none => (table, .ok none)
  | some cur =>
      if sqPatchSize p = 0 then (table, .ok (some cur))
      else (table.map (fun r => if r.id = id then sqApplyUpdate r p else r),
            .ok (some (sqApplyUpdate cur p)))

/-- SQLiteStorage.deleteMeasurement (`src/unnamed/part_010` 190-198):
`DELETE FROM measurements WHERE id = ? RETURNING id`, reporting whether a row
came back. -/
def sqDeleteMeasurement (table : List Measurement) (id : Nat) : List Measurement × Bool :=
  (table.filter (fun m => decide (m.id ≠ id)),
   (table.find? (fun m => decide (m.id = id))).isSome)

/-- Number of assignments the query builder receives from
`DatabaseStorage.updateMeasurement`: one per present patch field, the `id`
field included (`.set(measurementUpdate)` filters nothing out). -/
def dbPatchSize (p : MeasurementPatch) : Nat :=
  (if p.id.isSome then 1 else 0) + sqPatchSize p

/-- DatabaseStorage.updateMeasurement (`src/server/db.ts` 293-304): the patch
is handed unfiltered to the query builder's `set`, followed by
`WHERE id = ?` and `RETURNING`.  With no assignment at all the builder cannot
form a valid `UPDATE ... SET` statement and raises (there is no empty-patch
guard in this implementation, unlike `SQLiteStorage`); otherwise all present
fields, `id` included, are written to every matching row and the first
updated row (or `none`) is returned. -/
def dbUpdateMeasurement (table : List Measurement) (id : Nat) (p : MeasurementPatch) :
    List Measurement × Except String (Option Measurement) :=
  if dbPatchSize p = 0 then (table, .error "No values to set")
  else (table.map (fun r => if r.id = id then applyPatch r p else r),
        .ok ((table.find? (fun m => decide (m.id = id))).map (fun r => applyPatch r p)))

/-! ### Workout programs and their exercise links -/

/-- The slice of the `MemStorage` state the workout-program claims touch:
the `workoutPrograms`, `workoutExercises` and `exercises` maps. -/
structure MemState where
  workoutPrograms : MMap WorkoutProgram
  workoutExercises : MMap WorkoutExercise
  exercises : MMap Exercise
deriving Repr, DecidableEq

/-- The `workoutExercises.map(...)` loop of `MemStorage.getWorkoutExercises`
(`src/server/storage.ts` 268-278): join each link with its exercise and throw
when the exercise is missing. -/
def joinExercises (exs : MMap Exercise) : List WorkoutExercise →
    Except String (List WorkoutExerciseJoined)
  | [] => .ok []
  | we :: rest =>
      match mget exs we.exerciseId with
      | none => .error ("Exercise with id " ++ toString we.exerciseId ++ " not found")
      | some e => (joinExercises exs rest).map (fun tail => ⟨we, e⟩ :: tail)

/-- MemStorage.getWorkoutExercises (`src/server/storage.ts` 263-279): filter
the links by program, sort ascending by `order`, then join each with its
exercise, throwing on a missing exercise. -/
def memGetWorkoutExercises (s : MemState) (pid : Nat) :
    Except String (List WorkoutExerciseJoined) :=
  joinExercises s.exercises
    (sortByOrderAsc ((mvalues s.workoutExercises).filter
      (fun we => decide (we.workoutProgramId = pid))))

/-- MemStorage.getWorkoutProgramWithExercises (`src/server/storage.ts`
206-218): `undefined` when the program is absent, otherwise the program
paired with its joined exercise list. -/
def memGetWorkoutProgramWithExercises (s : MemState) (pid : Nat) :
    Except String (Option (WorkoutProgram × List WorkoutExerciseJoined)) :=
  match mget s.workoutPrograms pid with
  | none => .ok none
  | some prog => (memGetWorkoutExercises s pid).map (fun exs => some (prog, exs))

/-- MemStorage.deleteWorkoutProgram (`src/server/storage.ts` 250-260): list
the links of the program, delete each of them by its `id` field, then delete
the program itself and report whether it was present. -/
def memDeleteWorkoutProgram (s : MemState) (pid : Nat) : MemState × Bool :=
  let toDelete := (mvalues s.workoutExercises).filter
    (fun we => decide (we.workoutProgramId = pid))
  let links := toDelete.foldl (fun acc we => (mdelete acc we.id).1) s.workoutExercises
  let (progs, removed) := mdelete s.workoutPrograms pid
  ({ s with workoutPrograms := progs, workoutExercises := links }, removed)

/-- MemStorage.removeExerciseFromWorkout (`src/server/storage.ts` 312-314):
`this.workoutExercises.delete(id)`. -/
def memRemoveExerciseFromWorkout (s : MemState) (id : Nat) : MemState × Bool :=
  let (links, removed) := mdelete s.workoutExercises id
  ({ s with workoutExercises := links }, removed)

/-- SQLiteStorage.getWorkoutExercises (`src/unnamed/part_010` 355-393) and
the structurally identical DatabaseStorage.getWorkoutExercises
(`src/server/db.ts` 440-456): an inner join of `workout_exercises` with
`exercises` on the exercise id, restricted to the program, ordered ascending
by `"order"`.  A link whose exercise id matches no exercise row produces no
output row. -/
def sqGetWorkoutExercises (links : List WorkoutExercise) (exs : List Exercise) (pid : Nat) :
    List WorkoutExerciseJoined :=
  sortJoinedByOrderAsc
    (((links.flatMap (fun we =>
        (exs.filter (fun e => decide (e.id = we.exerciseId))).map
          (fun e => ⟨we, e⟩))).filter
      (fun j => decide (j.we.workoutProgramId = pid))))

/-- SQLiteStorage.deleteWorkoutProgram (`src/unnamed/part_010` 340-352) and
DatabaseStorage.deleteWorkoutProgram (`src/server/db.ts` 422-437): delete all
links with the program's id, then delete the program, reporting whether it
existed. -/
def sqDeleteWorkoutProgram (links : List WorkoutExercise) (progs : List WorkoutProgram)
    (pid : Nat) : List WorkoutExercise × List WorkoutProgram × Bool :=
  (links.filter (fun we => decide (we.workoutProgramId ≠ pid)),
   progs.filter (fun pr => decide (pr.id ≠ pid)),
   (progs.find? (fun pr => decide (pr.id = pid))).isSome)

/-- SQLiteStorage.removeExerciseFromWorkout (`src/unnamed/part_010` 483-491):
`DELETE FROM workout_exercises WHERE id = ? RETURNING id`. -/
def sqRemoveExerciseFromWorkout (links : List WorkoutExercise) (id : Nat) :
    List WorkoutExercise × Bool :=
  (links.filter (fun we => decide (we.id ≠ id)),
   (links.find? (fun we => decide (we.id = id))).isSome)

/-! ### Workout logs

The facade exposes exactly two operations that write to the workout-log
store: `createWorkoutLog` and `completeWorkoutLog` (`IStorage`,
`src/server/storage.ts` 46-50 — there is no update or delete for logs, and no
other method touches the log store). -/

/-- The workout-log slice of the `MemStorage` state: the `workoutLogs` map
and the `workoutLogIdCounter`. -/
structure MemLogState where
  logs : MMap WorkoutLog
  counter : Nat
deriving Repr, DecidableEq

/-- The `MemStorage` constructor's initial log state: empty map, counter 1
(`src/server/storage.ts` 89, 98). -/
def memLogInit : MemLogState := ⟨[], 1⟩

/-- MemStorage.createWorkoutLog (`src/server/storage.ts` 327-332): take a
fresh id from the counter and store the spread of the insert object; the
`completed` column defaults to `false`. -/
def memCreateWorkoutLog (s : MemLogState) (ins : InsertWorkoutLog) :
    MemLogState × WorkoutLog :=
  let id := s.counter
  let log : WorkoutLog :=
    { id := id, userId := ins.userId, workoutProgramId := ins.workoutProgramId,
      date := ins.date, completed := ins.completed.getD false }
  (⟨mset s.logs id log, s.counter + 1⟩, log)

/-- MemStorage.completeWorkoutLog (`src/server/storage.ts` 334-343):
`undefined` when absent, otherwise overwrite the entry with
`\x7b ...log, completed: true \x7d`. -/
def memCompleteWorkoutLog (s : MemLogState) (id : Nat) :
    MemLogState × Option WorkoutLog :=
  match mget s.logs id with
  | none => (s, none)
  | some log =>
      let updated := { log with completed := true }
      (⟨mset s.logs id updated, s.counter⟩, some updated)

/-- The facade operations that write to the workout-log store. -/
inductive LogOp where
  | create (ins : InsertWorkoutLog)
  | complete (id : Nat)
deriving Repr, DecidableEq

/-- State transition of the `MemStorage` log store under one facade
operation. -/
def memLogStep (s : MemLogState) : LogOp → MemLogState
  | .create ins => (memCreateWorkoutLog s ins).1
  | .complete id => (memCompleteWorkoutLog s id).1

/-- The `MemStorage` log store after a sequence of facade operations, starting
from the constructor's state. -/
def memLogRun (ops : List LogOp) : MemLogState := ops.foldl memLogStep memLogInit

/-- The workout-log table slice of the `SQLiteStorage` state: the
`workout_logs` rows and the next `AUTOINCREMENT` id. -/
structure SqLogState where
  rows : List WorkoutLog
  nextId : Nat
deriving Repr, DecidableEq

/-- An empty `workout_logs` table, ids starting at 1. -/
def sqLogInit : SqLogState := ⟨[], 1⟩

/-- SQLiteStorage.createWorkoutLog (`src/unnamed/part_010` 513-547):
`INSERT INTO workout_logs ... RETURNING *`; the `completed` column defaults
to 0 when the insert omits it. -/
def sqCreateWorkoutLog (s : SqLogState) (ins : InsertWorkoutLog) :
    SqLogState × WorkoutLog :=
  let row : WorkoutLog :=
    { id := s.nextId, userId := ins.userId, workoutProgramId := ins.workoutProgramId,
      date := ins.date, completed := ins.completed.getD false }
  (⟨s.rows ++ [row], s.nextId + 1⟩, row)

/-- SQLiteStorage.completeWorkoutLog (`src/unnamed/part_010` 549-557):
`UPDATE workout_logs SET completed = 1 WHERE id = ? RETURNING *`. -/
def sqCompleteWorkoutLog (s : SqLogState) (id : Nat) :
    SqLogState × Option WorkoutLog :=
  (⟨s.rows.map (fun r => if r.id = id then { r with completed := true } else r), s.nextId⟩,
   (s.rows.find? (fun r => decide (r.id = id))).map (fun r => { r with completed := true }))

/-- State transition of the `SQLiteStorage` log table under one facade
operation. -/
def sqLogStep (s : SqLogState) : LogOp → SqLogState
  | .create ins => (sqCreateWorkoutLog s ins).1
  | .complete id => (sqCompleteWorkoutLog s id).1

/-- The `SQLiteStorage` log table after a sequence of facade operations. -/
def sqLogRun (ops : List LogOp) : SqLogState := ops.foldl sqLogStep sqLogInit

/-! ### Field-name mapper

`SQLiteStorage.toSnakeCase` (`src/unnamed/part_010` 759-761) is
`str.replace(/([A-Z])/g, "_$1").toLowerCase()`.  Key strings are modelled as
lists of Unicode code points; the regex class `[A-Z]` is the code-point range
65-90, `_` is 95, and lower-casing an ASCII capital adds 32. -/

/-- The replacement pass `str.replace(/([A-Z])/g, "_$1")`: each ASCII capital
is preceded by an underscore, everything else is copied. -/
def insertUnderscores (s : List Nat) : List Nat :=
  s.flatMap (fun c => if 65 ≤ c ∧ c ≤ 90 then [95, c] else [c])

/-- The `toLowerCase()` pass, restricted to its action on the ASCII range the
mapper's inputs (JavaScript identifier keys) live in. -/
def lowerAll (s : List Nat) : List Nat :=
  s.map (fun c => if 65 ≤ c ∧ c ≤ 90 then c + 32 else c)

/-- SQLiteStorage.toSnakeCase (`src/unnamed/part_010` 759-761). -/
def toSnakeCase (s : List Nat) : List Nat :=
  lowerAll (insertUnderscores s)

theorem lowerAll_not_upper (s : List Nat) :
    ∀ c ∈ lowerAll s, ¬(65 ≤ c ∧ c ≤ 90) := by
  intro c hc
  simp only [lowerAll, List.mem_map] at hc
  obtain ⟨a, _, rfl⟩ := hc
  by_cases h : 65 ≤ a ∧ a ≤ 90
  · simp [h]; omega
  · simp [h]

theorem insertUnderscores_of_no_upper (s : List Nat) (h : ∀ c ∈ s, ¬(65 ≤ c ∧ c ≤ 90)) :
    insertUnderscores s = s := by
  induction s with
  | nil => rfl
  | cons c rest ih =>
      have hc := h c (by simp)
      simp only [insertUnderscores, List.flatMap_cons, if_neg hc]
      simp only [insertUnderscores] at ih
      simp [ih (fun x hx => h x (by simp [hx]))]

theorem lowerAll_of_no_upper (s : List Nat) (h : ∀ c ∈ s, ¬(65 ≤ c ∧ c ≤ 90)) :
    lowerAll s = s := by
  induction s with
  | nil => rfl
  | cons c rest ih =>
      have hc := h c (by simp)
      simp only [lowerAll, List.map_cons, if_neg hc]
      simp only [lowerAll] at ih
      simp [ih (fun x hx => h x (by simp [hx]))]

/-- C7: the field-name mapper is idempotent — applying `toSnakeCase` to its
own output changes nothing, and it is a no-op on any key containing no ASCII
capital (already snake_case). -/
theorem toSnakeCase_idempotent :
    (∀ s : List Nat, toSnakeCase (toSnakeCase s) = toSnakeCase s) ∧
    (∀ s : List Nat, (∀ c ∈ s, ¬(65 ≤ c ∧ c ≤ 90)) → toSnakeCase s = s) := by
  have noUpper : ∀ s : List Nat, (∀ c ∈ s, ¬(65 ≤ c ∧ c ≤ 90)) → toSnakeCase s = s := by
    intro s h
    unfold toSnakeCase
    rw [insertUnderscores_of_no_upper s h, lowerAll_of_no_upper s h]
  refine ⟨fun s => ?_, noUpper⟩
  exact noUpper (toSnakeCase s) (lowerAll_not_upper (insertUnderscores s))

/-- Witness for C7: the mapper at the concrete key `workoutProgramId`
(code points) is stable under a second application, and the hypothesis of the
no-op clause is discharged at its own output, a snake_case key. -/
theorem toSnakeCase_idempotent_witness :
    toSnakeCase (toSnakeCase [119, 111, 114, 107, 111, 117, 116, 80, 114, 111, 103, 114, 97,
        109, 73, 100]) =
      toSnakeCase [119, 111, 114, 107, 111, 117, 116, 80, 114, 111, 103, 114, 97, 109, 73,
        100] ∧
    ((∀ c ∈ [119, 111, 114, 107, 111, 117, 116, 95, 112, 114, 111, 103, 114, 97, 109, 95,
        105, 100], ¬(65 ≤ c ∧ c ≤ 90)) ∧
      toSnakeCase [119, 111, 114, 107, 111, 117, 116, 95, 112, 114, 111, 103, 114, 97, 109,
        95, 105, 100] =
        [119, 111, 114, 107, 111, 117, 116, 95, 112, 114, 111, 103, 114, 97, 109, 95, 105,
          100]) :=
  ⟨toSnakeCase_idempotent.1 _,
   by decide,
   toSnakeCase_idempotent.2 _ (by decide)⟩

/-! ### Association-list map lemmas -/

theorem mget_cons (kv : Nat × α) (rest : MMap α) (k : Nat) :
    mget (kv :: rest) k = if kv.1 = k then some kv.2 else mget rest k := by
  by_cases h : kv.1 = k
  · simp only [mget, if_pos h]
    rw [List.find?_cons_of_pos _ (by simpa using h)]
    rfl
  · simp only [mget, if_neg h]
    rw [List.find?_cons_of_neg _ (by simpa using h)]

theorem mset_self : ∀ (s : MMap α) (k : Nat) (v : α), mget s k = some v → mset s k v = s
  | [], k, v, h => by simp [mget] at h
  | kv :: rest, k, v, h => by
      rw [mget_cons] at h
      by_cases hk : kv.1 = k
      · rw [if_pos hk] at h
        obtain rfl : kv.2 = v := by injection h
        simp [mset, if_pos hk, ← hk]
      · rw [if_neg hk] at h
        simp [mset, if_neg hk, mset_self rest k v h]

theorem mget_mset_eq (s : MMap α) (k : Nat) (v : α) : mget (mset s k v) k = some v := by
  induction s with
  | nil => simp [mset, mget_cons]
  | cons kv rest ih =>
      by_cases hk : kv.1 = k
      · simp [mset, if_pos hk, mget_cons]
      · simp [mset, if_neg hk, mget_cons, hk, ih]

theorem mget_mset_ne (s : MMap α) (k k' : Nat) (v : α) (h : k' ≠ k) :
    mget (mset s k v) k' = mget s k' := by
  have hne : ¬(k = k') := fun hh => h hh.symm
  induction s with
  | nil => simp [mset, mget_cons, hne]
  | cons kv rest ih =>
      by_cases hk : kv.1 = k
      · simp [mset, if_pos hk, mget_cons, hk, hne]
      · simp [mset, if_neg hk, mget_cons, ih]

theorem mem_mdelete (s : MMap α) (k : Nat) (kv : Nat × α) :
    kv ∈ (mdelete s k).1 ↔ kv ∈ s ∧ kv.1 ≠ k := by
  simp [mdelete, List.mem_filter]

theorem mdelete_snd (s : MMap α) (k : Nat) :
    (mdelete s k).2 = true ↔ ∃ kv ∈ s, kv.1 = k := by
  simp [mdelete, List.find?_isSome]

/-! ### C2 — the identifier field under partial update -/

/-- Demo measurement used for concrete evaluations of the update paths. -/
def demoMeasurement : Measurement := ⟨1, 1, "bicep", 10, "cm", 5⟩

/-- An update object carrying only an `id` field. -/
def idOnlyPatch : MeasurementPatch := { id := some 999 }

/-- C2 (code bug): `SQLiteStorage.updateMeasurement` never writes the `id`
column — the returned row keeps the current row's id and the stored ids are
unchanged, whatever the patch contains.  `MemStorage.updateMeasurement`,
however, spreads the whole patch over the record, so at the concrete input
`update(1, \x7bid: 999\x7d)` the returned and stored record has id 999, not 1,
contradicting the claim for that implementation. -/
theorem updateMeasurement_id_field :
    (∀ (table : List Measurement) (id : Nat) (p : MeasurementPatch) (cur : Measurement),
        table.find? (fun m => decide (m.id = id)) = some cur →
        ∃ r, (sqUpdateMeasurement table id p).2 = .ok (some r) ∧ r.id = cur.id ∧
          (sqUpdateMeasurement table id p).1.map (·.id) = table.map (·.id)) ∧
    ((memUpdateMeasurement [(1, demoMeasurement)] 1 idOnlyPatch).2 =
        some { demoMeasurement with id := 999 } ∧
      mget (memUpdateMeasurement [(1, demoMeasurement)] 1 idOnlyPatch).1 1 =
        some { demoMeasurement with id := 999 }) := by
  constructor
  · intro table id p cur h
    by_cases hp : sqPatchSize p = 0
    · refine ⟨cur, ?_, rfl, ?_⟩ <;> simp [sqUpdateMeasurement, h, hp]
    · refine ⟨sqApplyUpdate cur p, ?_, rfl, ?_⟩
      · simp [sqUpdateMeasurement, h, hp]
      · simp only [sqUpdateMeasurement, h, if_neg hp, List.map_map]
        refine List.map_congr_left (fun r _ => ?_)
        by_cases hr : r.id = id <;> simp [hr, sqApplyUpdate]
  · constructor <;> decide

/-- Witness for C2: the SQLite clause applied at a concrete store holding
`demoMeasurement`, with its lookup hypothesis discharged by evaluation. -/
theorem updateMeasurement_id_field_witness :
    ∃ r, (sqUpdateMeasurement [demoMeasurement] 1 idOnlyPatch).2 = .ok (some r) ∧
      r.id = demoMeasurement.id ∧
      (sqUpdateMeasurement [demoMeasurement] 1 idOnlyPatch).1.map (·.id) =
        [demoMeasurement].map (·.id) :=
  updateMeasurement_id_field.1 [demoMeasurement] 1 idOnlyPatch demoMeasurement (by decide)

/-! ### C3 — the empty-patch update -/

/-- The empty update object `\x7b\x7d`. -/
def emptyPatch : MeasurementPatch := {}

/-- C3 (code bug): on an existing record, `MemStorage` and `SQLiteStorage`
treat the empty patch as a no-op that returns the current record unchanged
(SQLiteStorage has an explicit `updateParts.length === 0` guard for exactly
this).  `DatabaseStorage` has no such guard and hands the empty patch to the
query builder, which cannot form an `UPDATE` with no assignment and raises —
shown at the concrete store holding `demoMeasurement`. -/
theorem updateMeasurement_empty_patch :
    (∀ (s : MMap Measurement) (id : Nat) (m : Measurement), mget s id = some m →
        memUpdateMeasurement s id emptyPatch = (s, some m)) ∧
    (∀ (table : List Measurement) (id : Nat) (cur : Measurement),
        table.find? (fun m => decide (m.id = id)) = some cur →
        sqUpdateMeasurement table id emptyPatch = (table, .ok (some cur))) ∧
    dbUpdateMeasurement [demoMeasurement] 1 emptyPatch =
      ([demoMeasurement], .error "No values to set") := by
  refine ⟨fun s id m h => ?_, fun table id cur h => ?_, rfl⟩
  · have happ : applyPatch m emptyPatch = m := rfl
    simp [memUpdateMeasurement, h, happ, mset_self s id m h]
  · simp [sqUpdateMeasurement, h, sqPatchSize, emptyPatch]

/-- Witness for C3: both no-op clauses applied at a concrete one-record
store, hypotheses discharged by evaluation. -/
theorem updateMeasurement_empty_patch_witness :
    memUpdateMeasurement [(1, demoMeasurement)] 1 emptyPatch =
      ([(1, demoMeasurement)], some demoMeasurement) ∧
    sqUpdateMeasurement [demoMeasurement] 1 emptyPatch =
      ([demoMeasurement], .ok (some demoMeasurement)) :=
  ⟨updateMeasurement_empty_patch.1 [(1, demoMeasurement)] 1 demoMeasurement (by decide),
   updateMeasurement_empty_patch.2.1 [demoMeasurement] 1 demoMeasurement (by decide)⟩

/-! ### C9 — delete reports whether a record was removed -/

/-- C9: every delete operation is total (no exception) and returns `true`
exactly when a record with the id was present: shown for `deleteMeasurement`
and `removeExerciseFromWorkout` in both the in-memory and the SQL-backed
implementation. -/
theorem delete_returns_existence :
    ∀ id : Nat,
      (∀ s : MMap Measurement,
        ((memDeleteMeasurement s id).2 = true ↔ ∃ kv ∈ s, kv.1 = id)) ∧
      (∀ table : List Measurement,
        ((sqDeleteMeasurement table id).2 = true ↔ ∃ m ∈ table, m.id = id)) ∧
      (∀ s : MemState,
        ((memRemoveExerciseFromWorkout s id).2 = true ↔ ∃ kv ∈ s.workoutExercises, kv.1 = id)) ∧
      (∀ links : List WorkoutExercise,
        ((sqRemoveExerciseFromWorkout links id).2 = true ↔ ∃ we ∈ links, we.id = id)) := by
  intro id
  refine ⟨fun s => ?_, fun table => ?_, fun s => ?_, fun links => ?_⟩
  · exact mdelete_snd s id
  · simp [sqDeleteMeasurement, List.find?_isSome]
  · simpa [memRemoveExerciseFromWorkout] using mdelete_snd s.workoutExercises id
  · simp [sqRemoveExerciseFromWorkout, List.find?_isSome]

/-- Witness for C9: instantiation at id 999 over empty stores (`delete(999)`
returns `false`) and at a one-record store (returns `true`). -/
theorem delete_returns_existence_witness :
    ((memDeleteMeasurement [] 999).2 = true ↔ ∃ kv ∈ ([] : MMap Measurement), kv.1 = 999) ∧
    ((sqDeleteMeasurement [demoMeasurement] 1).2 = true ↔
      ∃ m ∈ [demoMeasurement], m.id = 1) :=
  ⟨(delete_returns_existence 999).1 [], (delete_returns_existence 1).2.1 [demoMeasurement]⟩

/-! ### C10 — update on a missing id -/

/-- An update object carrying only a new `value`. -/
def valueOnlyPatch : MeasurementPatch := { value := some 155 }

/-- C10 (code bug): when no record has the id, `MemStorage` and
`SQLiteStorage` return the not-found signal and leave the store untouched for
every patch, and `DatabaseStorage` does so for every nonempty patch (its
`UPDATE` matches no row); but `DatabaseStorage` with the empty patch raises
the builder's error instead of returning the not-found signal — the store is
still unchanged.  The final clause evaluates the failing input. -/
theorem updateMeasurement_not_found :
    (∀ (s : MMap Measurement) (id : Nat) (p : MeasurementPatch),
        mget s id = none → memUpdateMeasurement s id p = (s, none)) ∧
    (∀ (table : List Measurement) (id : Nat) (p : MeasurementPatch),
        table.find? (fun m => decide (m.id = id)) = none →
        sqUpdateMeasurement table id p = (table, .ok none)) ∧
    (∀ (table : List Measurement) (id : Nat) (p : MeasurementPatch),
        table.find? (fun m => decide (m.id = id)) = none → dbPatchSize p ≠ 0 →
        dbUpdateMeasurement table id p = (table, .ok none)) ∧
    (∀ (table : List Measurement) (id : Nat) (p : MeasurementPatch),
        dbPatchSize p = 0 → (dbUpdateMeasurement table id p).1 = table) ∧
    dbUpdateMeasurement ([] : List Measurement) 5 emptyPatch =
      ([], .error "No values to set") := by
  refine ⟨fun s id p h => ?_, fun table id p h => ?_, fun table id p h hp => ?_,
    fun table id p hp => ?_, rfl⟩
  · simp [memUpdateMeasurement, h]
  · simp [sqUpdateMeasurement, h]
  · have hall := List.find?_eq_none.mp h
    simp only [dbUpdateMeasurement, if_neg hp, h, Option.map_none', Prod.mk.injEq, and_true]
    calc table.map (fun r => if r.id = id then applyPatch r p else r)
        = table.map (fun r => r) :=
          List.map_congr_left (fun r hr => if_neg (by simpa using hall r hr))
      _ = table := List.map_id' table
  · simp [dbUpdateMeasurement, hp]

/-- Witness for C10: all clauses applied at concrete inputs with empty
stores, hypotheses discharged by evaluation. -/
theorem updateMeasurement_not_found_witness :
    memUpdateMeasurement [] 7 valueOnlyPatch = ([], none) ∧
    sqUpdateMeasurement [] 7 valueOnlyPatch = ([], .ok none) ∧
    dbUpdateMeasurement [] 7 valueOnlyPatch = ([], .ok none) ∧
    (dbUpdateMeasurement [] 7 emptyPatch).1 = [] :=
  ⟨updateMeasurement_not_found.1 [] 7 valueOnlyPatch (by decide),
   updateMeasurement_not_found.2.1 [] 7 valueOnlyPatch (by decide),
   updateMeasurement_not_found.2.2.1 [] 7 valueOnlyPatch (by decide) (by decide),
   updateMeasurement_not_found.2.2.2.1 [] 7 emptyPatch (by decide)⟩

/-! ### C5 — cascading delete of workout-exercise links -/

theorem sqGetWorkoutExercises_eq_nil (links : List WorkoutExercise) (exs : List Exercise)
    (pid : Nat) (h : ∀ we ∈ links, we.workoutProgramId ≠ pid) :
    sqGetWorkoutExercises links exs pid = [] := by
  have hnil : List.filter (fun j => decide (j.we.workoutProgramId = pid))
      (links.flatMap (fun we =>
        List.map (fun e => WorkoutExerciseJoined.mk we e)
          (List.filter (fun e => decide (e.id = we.exerciseId)) exs))) = [] := by
    rw [List.filter_eq_nil_iff]
    intro j hj
    obtain ⟨we, hwe, hj2⟩ := List.mem_flatMap.mp hj
    obtain ⟨e, he, rfl⟩ := List.mem_map.mp hj2
    simpa using h we hwe
  unfold sqGetWorkoutExercises sortJoinedByOrderAsc
  rw [hnil]
  rfl

theorem mem_foldl_mdelete (ds : List WorkoutExercise) :
    ∀ (acc : MMap WorkoutExercise) (kv : Nat × WorkoutExercise),
      kv ∈ ds.foldl (fun acc we => (mdelete acc we.id).1) acc ↔
        kv ∈ acc ∧ ∀ we ∈ ds, kv.1 ≠ we.id := by
  induction ds with
  | nil => simp
  | cons d rest ih =>
      intro acc kv
      rw [List.foldl_cons, ih]
      simp only [mem_mdelete, List.forall_mem_cons]
      tauto

/-- Partial<WorkoutExercise>: an update object for a workout-exercise link in
which every field is optional. -/
structure WorkoutExercisePatch where
  id : Option Nat := none
  workoutProgramId : Option Nat := none
  exerciseId : Option Nat := none
  sets : Option (Option Int) := none
  reps : Option (Option Int) := none
  duration : Option (Option String) := none
  order : Option Int := none
deriving Repr, DecidableEq

/-- The JavaScript spread `\x7b ...we, ...update \x7d` used by
`MemStorage.updateWorkoutExercise`: every field present in the patch
overrides the record's field, including `id`. -/
def applyWEPatch (we : WorkoutExercise) (p : WorkoutExercisePatch) : WorkoutExercise :=
  { id := p.id.getD we.id
    workoutProgramId := p.workoutProgramId.getD we.workoutProgramId
    exerciseId := p.exerciseId.getD we.exerciseId
    sets := p.sets.getD we.sets
    reps := p.reps.getD we.reps
    duration := p.duration.getD we.duration
    order := p.order.getD we.order }

/-- MemStorage.updateWorkoutExercise (`src/server/storage.ts` 301-310): look
the link up by its map key, return `none` when absent, otherwise overwrite
the entry under the same key with the spread of the record and the whole
patch (the `id` field is not filtered out, so an id-carrying patch makes the
stored record's `id` differ from its map key). -/
def memUpdateWorkoutExercise (s : MemState) (id : Nat) (p : WorkoutExercisePatch) :
    MemState × Option WorkoutExercise :=
  match mget s.workoutExercises id with
  | none => (s, none)
  | some we =>
      let updated := applyWEPatch we p
      ({ s with workoutExercises := mset s.workoutExercises id updated }, some updated)

/-- Demo catalog entry, program and links used for concrete instantiations. -/
def demoExercise : Exercise := ⟨1, "Bench press", some "upper", none⟩

def demoProgram : WorkoutProgram := ⟨1, 1, "Push day", none, some "primary", none⟩

def demoWE1 : WorkoutExercise := ⟨1, 1, 1, some 3, some 10, none, 2⟩

def demoWE2 : WorkoutExercise := ⟨2, 1, 1, some 3, some 8, none, 1⟩

def demoMemState : MemState :=
  ⟨[(1, demoProgram)], [(1, demoWE1), (2, demoWE2)], [(1, demoExercise)]⟩

/-- Program 7 and a link to it whose map key (1) agrees with its record id
(1), exactly as `addExerciseToWorkout` creates it. -/
def program7 : WorkoutProgram := ⟨7, 1, "Leg day", none, some "primary", none⟩

def linkToProgram7 : WorkoutExercise := ⟨1, 7, 1, some 3, some 10, none, 1⟩

def preC5State : MemState := ⟨[(7, program7)], [(1, linkToProgram7)], [(1, demoExercise)]⟩

/-- An update object for a link carrying only an `id` field. -/
def idOnlyWEPatch : WorkoutExercisePatch := { id := some 999 }

/-- Counterexample to C5: starting from a well-formed state (one link to
program 7, stored by `addExerciseToWorkout` under key 1 with record id 1),
the facade call `updateWorkoutExercise(1, \x7bid: 999\x7d)` spreads the patch and
leaves the entry keyed 1 holding a record whose `id` is 999.
`deleteWorkoutProgram(7)` then deletes the program's links by their `id`
field (`this.workoutExercises.delete(we.id)`), misses that entry, and the
subsequent `getWorkoutExercises(7)` returns a non-empty collection — the
claim says it must be empty. -/
theorem deleteWorkoutProgram_leaves_link_counterexample :
    memGetWorkoutExercises
        (memDeleteWorkoutProgram
          (memUpdateWorkoutExercise preC5State 1 idOnlyWEPatch).1 7).1 7 =
      .ok [⟨{ linkToProgram7 with id := 999 }, demoExercise⟩] :=
  rfl

/-- C5 amended: after `deleteWorkoutProgram(id)` the SQL-backed
implementations retain no link of the program, so `getWorkoutExercises(id)`
is empty; `MemStorage` guarantees the same only in states whose link-map keys
agree with the records' `id` fields.  `addExerciseToWorkout` only creates
such entries, but `updateWorkoutExercise` with an id-carrying patch (the
id-spread defect reported with C2) breaks the agreement, and then the delete
loop — which removes links by their `id` field — can leave the program's
link behind (see the counterexample above). -/
theorem deleteWorkoutProgram_removes_links :
    (∀ (s : MemState) (pid : Nat),
        (∀ kv ∈ s.workoutExercises, kv.1 = kv.2.id) →
        memGetWorkoutExercises (memDeleteWorkoutProgram s pid).1 pid = .ok []) ∧
    (∀ (links : List WorkoutExercise) (progs : List WorkoutProgram) (exs : List Exercise)
        (pid : Nat),
        sqGetWorkoutExercises (sqDeleteWorkoutProgram links progs pid).1 exs pid = []) := by
  constructor
  · intro s pid hkeys
    have hstate : (memDeleteWorkoutProgram s pid).1.workoutExercises =
        ((mvalues s.workoutExercises).filter
            (fun we => decide (we.workoutProgramId = pid))).foldl
          (fun acc we => (mdelete acc we.id).1) s.workoutExercises := by
      simp [memDeleteWorkoutProgram, mdelete]
    have hexs : (memDeleteWorkoutProgram s pid).1.exercises = s.exercises := by
      simp [memDeleteWorkoutProgram, mdelete]
    have hfilter : (mvalues (memDeleteWorkoutProgram s pid).1.workoutExercises).filter
        (fun we => decide (we.workoutProgramId = pid)) = [] := by
      rw [List.filter_eq_nil_iff]
      intro we hwe
      simp only [decide_eq_true_eq]
      intro hpid
      obtain ⟨kv, hkv, rfl⟩ := List.mem_map.mp hwe
      rw [hstate, mem_foldl_mdelete] at hkv
      obtain ⟨hmem, hnotdel⟩ := hkv
      refine hnotdel kv.2 ?_ (hkeys kv hmem)
      exact List.mem_filter.mpr ⟨List.mem_map.mpr ⟨kv, hmem, rfl⟩, by simpa using hpid⟩
    rw [memGetWorkoutExercises, hfilter, hexs]
    rfl
  · intro links progs exs pid
    refine sqGetWorkoutExercises_eq_nil _ exs pid (fun we hwe => ?_)
    have := List.mem_filter.mp hwe
    simpa using this.2

/-- Witness for C5's amended statement: both clauses at a concrete state
holding program 1 with two links created by `addExerciseToWorkout` (keys
agree with record ids); the key-agreement hypothesis is discharged by
evaluation. -/
theorem deleteWorkoutProgram_removes_links_witness :
    memGetWorkoutExercises (memDeleteWorkoutProgram demoMemState 1).1 1 = .ok [] ∧
    sqGetWorkoutExercises
      (sqDeleteWorkoutProgram [demoWE1, demoWE2] [demoProgram] 1).1 [demoExercise] 1 = [] :=
  ⟨deleteWorkoutProgram_removes_links.1 demoMemState 1 (by decide),
   deleteWorkoutProgram_removes_links.2 [demoWE1, demoWE2] [demoProgram] [demoExercise] 1⟩

/-! ### C8 — results ordered by sequence position -/

theorem joinExercises_ok_map (exs : MMap Exercise) :
    ∀ (l : List WorkoutExercise) (res : List WorkoutExerciseJoined),
      joinExercises exs l = .ok res → res.map (·.we) = l := by
  intro l
  induction l with
  | nil => intro res h; cases h; rfl
  | cons we rest ih =>
      intro res h
      simp only [joinExercises] at h
      cases hget : mget exs we.exerciseId with
      | none => rw [hget] at h; cases h
      | some e =>
          rw [hget] at h
          cases hrest : joinExercises exs rest with
          | error msg => rw [hrest] at h; cases h
          | ok tail =>
              rw [hrest] at h
              cases h
              simpa using ih tail hrest

/-- C8: the exercise collections returned by `getWorkoutExercises` and
`getWorkoutProgramWithExercises` are ascending in the links' sequence
position (`order`): every adjacent pair satisfies
`order[i] ≤ order[i+1]` — for `MemStorage` (whenever the read succeeds) and
for the SQL-backed join. -/
theorem getWorkoutExercises_sorted_by_order :
    (∀ (s : MemState) (pid : Nat) (res : List WorkoutExerciseJoined),
        memGetWorkoutExercises s pid = .ok res →
        res.Chain' (fun a b => a.we.order ≤ b.we.order)) ∧
    (∀ (s : MemState) (pid : Nat) (prog : WorkoutProgram)
        (res : List WorkoutExerciseJoined),
        memGetWorkoutProgramWithExercises s pid = .ok (some (prog, res)) →
        res.Chain' (fun a b => a.we.order ≤ b.we.order)) ∧
    (∀ (links : List WorkoutExercise) (exs : List Exercise) (pid : Nat),
        (sqGetWorkoutExercises links exs pid).Chain'
          (fun a b => a.we.order ≤ b.we.order)) := by
  have memCase : ∀ (s : MemState) (pid : Nat) (res : List WorkoutExerciseJoined),
      memGetWorkoutExercises s pid = .ok res →
      res.Chain' (fun a b => a.we.order ≤ b.we.order) := by
    intro s pid res h
    have hmap := joinExercises_ok_map s.exercises _ res h
    have hsorted : (res.map (·.we)).Pairwise orderLE := by
      rw [hmap]
      exact List.sorted_insertionSort orderLE _
    exact ((List.pairwise_map.mp hsorted).imp (fun hab => hab)).chain'
  refine ⟨memCase, ?_, ?_⟩
  · intro s pid prog res h
    simp only [memGetWorkoutProgramWithExercises] at h
    cases hprog : mget s.workoutPrograms pid with
    | none => rw [hprog] at h; cases h
    | some prog' =>
        rw [hprog] at h
        cases hexs : memGetWorkoutExercises s pid with
        | error msg => rw [hexs] at h; cases h
        | ok res2 =>
            rw [hexs] at h
            simp only [Except.map, Except.ok.injEq, Option.some.injEq,
              Prod.mk.injEq] at h
            obtain ⟨-, rfl⟩ := h
            exact memCase s pid res2 hexs
  · intro links exs pid
    exact ((List.sorted_insertionSort jorderLE _).imp (fun hab => hab)).chain'

/-- Witness for C8: the concrete state with links of positions 2 and 1
returns them reordered to [1, 2], and the chain property is obtained by
applying the theorem with the read's result discharged by evaluation. -/
theorem getWorkoutExercises_sorted_by_order_witness :
    ([⟨demoWE2, demoExercise⟩, ⟨demoWE1, demoExercise⟩] :
        List WorkoutExerciseJoined).Chain' (fun a b => a.we.order ≤ b.we.order) ∧
    (sqGetWorkoutExercises [demoWE1, demoWE2] [demoExercise] 1).Chain'
      (fun a b => a.we.order ≤ b.we.order) :=
  ⟨getWorkoutExercises_sorted_by_order.1 demoMemState 1
      [⟨demoWE2, demoExercise⟩, ⟨demoWE1, demoExercise⟩] rfl,
   getWorkoutExercises_sorted_by_order.2.2 [demoWE1, demoWE2] [demoExercise] 1⟩

/-! ### C4 — a link to a missing exercise -/

/-- A workout-exercise link whose exercise id (99) matches no exercise. -/
def orphanWE : WorkoutExercise := ⟨1, 1, 99, some 3, some 10, none, 1⟩

/-- A `MemStorage` state holding program 1 with one orphaned link and an
empty exercise catalog. -/
def orphanMemState : MemState := ⟨[(1, demoProgram)], [(1, orphanWE)], []⟩

/-- Counterexample to C4: at a store whose only link references the missing
exercise 99, the SQL-backed `getWorkoutExercises` — a total inner join —
returns normally with the link silently omitted (the empty collection), so
not every storage implementation surfaces a hard failure. -/
theorem getWorkoutExercises_orphan_counterexample :
    sqGetWorkoutExercises [orphanWE] [demoExercise] 1 = [] :=
  rfl

theorem joinExercises_error_of_orphan (exs : MMap Exercise) :
    ∀ l : List WorkoutExercise, (∃ we ∈ l, mget exs we.exerciseId = none) →
      ∃ msg, joinExercises exs l = .error msg := by
  intro l
  induction l with
  | nil => rintro ⟨we, hmem, -⟩; cases hmem
  | cons we rest ih =>
      rintro ⟨we', hmem, hget'⟩
      cases hget : mget exs we.exerciseId with
      | none =>
          exact ⟨"Exercise with id " ++ toString we.exerciseId ++ " not found",
            by simp [joinExercises, hget]⟩
      | some e =>
          rcases List.mem_cons.mp hmem with rfl | hmem'
          · rw [hget] at hget'; cases hget'
          · obtain ⟨msg, hmsg⟩ := ih ⟨we', hmem', hget'⟩
            exact ⟨msg, by simp [joinExercises, hget, hmsg, Except.map]⟩

theorem filter_id_eq_find (k : Nat) :
    ∀ exs : List Exercise, (exs.map (·.id)).Nodup →
      exs.filter (fun e => decide (e.id = k)) =
        (exs.find? (fun e => decide (e.id = k))).toList := by
  intro exs
  induction exs with
  | nil => intro _; rfl
  | cons e rest ih =>
      intro hnodup
      rw [List.map_cons, List.nodup_cons] at hnodup
      by_cases he : e.id = k
      · have hrest : rest.filter (fun e => decide (e.id = k)) = [] := by
          rw [List.filter_eq_nil_iff]
          intro e' he'
          simp only [decide_eq_true_eq]
          intro hk
          exact hnodup.1 (List.mem_map.mpr ⟨e', he', by rw [hk, he]⟩)
        rw [List.filter_cons_of_pos (by simpa using he),
          List.find?_cons_of_pos _ (by simpa using he), hrest]
        rfl
      · rw [List.filter_cons_of_neg (by simpa using he),
          List.find?_cons_of_neg _ (by simpa using he), ih hnodup.2]

theorem filter_flatMap_dist (l : List α) (f : α → List β) (p : β → Bool) :
    (l.flatMap f).filter p = l.flatMap (fun a => (f a).filter p) := by
  induction l with
  | nil => rfl
  | cons a rest ih => simp [List.flatMap_cons, List.filter_append, ih]

/-- C4 amended: when a stored link references a missing exercise,
`MemStorage.getWorkoutExercises` throws, while the SQL implementations'
inner join silently omits the orphaned link — their result is exactly the
program's links that do have an exercise, joined and sorted, with no error
(exercise ids are unique, being a primary-key column). -/
theorem getWorkoutExercises_orphan_behavior :
    (∀ (s : MemState) (pid : Nat),
        (∃ we ∈ mvalues s.workoutExercises,
            we.workoutProgramId = pid ∧ mget s.exercises we.exerciseId = none) →
        ∃ msg, memGetWorkoutExercises s pid = .error msg) ∧
    (∀ (links : List WorkoutExercise) (exs : List Exercise) (pid : Nat),
        (exs.map (·.id)).Nodup →
        sqGetWorkoutExercises links exs pid =
          sortJoinedByOrderAsc
            ((links.filter (fun we => decide (we.workoutProgramId = pid))).filterMap
              (fun we => (exs.find? (fun e => decide (e.id = we.exerciseId))).map
                (fun e => WorkoutExerciseJoined.mk we e)))) := by
  constructor
  · rintro s pid ⟨we, hmem, hpid, hget⟩
    refine joinExercises_error_of_orphan s.exercises _ ⟨we, ?_, hget⟩
    rw [sortByOrderAsc, List.mem_insertionSort, List.mem_filter]
    exact ⟨hmem, by simpa using hpid⟩
  · intro links exs pid hnodup
    unfold sqGetWorkoutExercises
    congr 1
    rw [filter_flatMap_dist]
    induction links with
    | nil => rfl
    | cons we rest ih =>
        rw [List.flatMap_cons, List.filter_cons, ih]
        by_cases hpid : we.workoutProgramId = pid
        · rw [if_pos (by simpa using hpid), List.filterMap_cons]
          rw [filter_id_eq_find we.exerciseId exs hnodup]
          cases hfind : exs.find? (fun e => decide (e.id = we.exerciseId)) with
          | none => simp [hfind]
          | some e =>
              simp only [hfind, Option.toList_some, List.map_cons, List.map_nil,
                Option.map_some', List.singleton_append]
              rw [List.filter_cons_of_pos (by simpa using hpid)]
              rfl
        · rw [if_neg (by simpa using hpid)]
          have : (List.map (fun e => WorkoutExerciseJoined.mk we e)
              (List.filter (fun e => decide (e.id = we.exerciseId)) exs)).filter
              (fun j => decide (j.we.workoutProgramId = pid)) = [] := by
            rw [List.filter_eq_nil_iff]
            intro j hj
            obtain ⟨e, -, rfl⟩ := List.mem_map.mp hj
            simpa using hpid
          rw [this, List.nil_append]

/-- Witness for C4's amended statement: both clauses at the concrete orphan
store, the orphan-existence and id-uniqueness hypotheses discharged by
evaluation. -/
theorem getWorkoutExercises_orphan_behavior_witness :
    (∃ msg, memGetWorkoutExercises orphanMemState 1 = .error msg) ∧
    sqGetWorkoutExercises [orphanWE] [demoExercise] 1 =
      sortJoinedByOrderAsc
        (([orphanWE].filter (fun we => decide (we.workoutProgramId = 1))).filterMap
          (fun we => ([demoExercise].find? (fun e => decide (e.id = we.exerciseId))).map
            (fun e => WorkoutExerciseJoined.mk we e))) :=
  ⟨getWorkoutExercises_orphan_behavior.1 orphanMemState 1
      ⟨orphanWE, by decide, by decide, by decide⟩,
   getWorkoutExercises_orphan_behavior.2 [orphanWE] [demoExercise] 1 (by decide)⟩

/-! ### C6 — the completed flag is one-way -/

theorem mem_mset_cases (m : MMap α) (k : Nat) (v : α) :
    ∀ kv ∈ mset m k v, kv ∈ m ∨ kv = (k, v) := by
  induction m with
  | nil => intro kv hkv; simp [mset] at hkv; simp [hkv]
  | cons kv0 rest ih =>
      intro kv hkv
      by_cases hk : kv0.1 = k
      · rw [mset, if_pos hk] at hkv
        rcases List.mem_cons.mp hkv with rfl | h
        · right; rfl
        · left; exact List.mem_cons_of_mem _ h
      · rw [mset, if_neg hk] at hkv
        rcases List.mem_cons.mp hkv with rfl | h
        · left; exact List.mem_cons_self _ _
        · rcases ih kv h with h' | h'
          · left; exact List.mem_cons_of_mem _ h'
          · right; exact h'

theorem mget_some_mem (m : MMap α) (k : Nat) (v : α) (h : mget m k = some v) :
    ∃ kv, kv ∈ m ∧ kv.1 = k ∧ kv.2 = v := by
  simp only [mget, Option.map_eq_some'] at h
  obtain ⟨kv, hfind, hv⟩ := h
  exact ⟨kv, List.mem_of_find?_eq_some hfind,
    by simpa using List.find?_some hfind, hv⟩

theorem memLogStep_keysBelow (s : MemLogState) (op : LogOp)
    (h : ∀ kv ∈ s.logs, kv.1 < s.counter) :
    ∀ kv ∈ (memLogStep s op).logs, kv.1 < (memLogStep s op).counter := by
  cases op with
  | create ins =>
      intro kv hkv
      rcases mem_mset_cases s.logs s.counter _ kv hkv with h' | h'
      · exact Nat.lt_succ_of_lt (h kv h')
      · rw [h']; exact Nat.lt_succ_self _
  | complete id =>
      cases hget : mget s.logs id with
      | none => simpa [memLogStep, memCompleteWorkoutLog, hget] using h
      | some log =>
          intro kv hkv
          simp only [memLogStep, memCompleteWorkoutLog, hget] at hkv
          rcases mem_mset_cases s.logs id _ kv hkv with h' | h'
          · simpa [memLogStep, memCompleteWorkoutLog, hget] using h kv h'
          · obtain ⟨kv0, hkv0, hk0, -⟩ := mget_some_mem s.logs id log hget
            have : id < s.counter := hk0 ▸ h kv0 hkv0
            simpa [memLogStep, memCompleteWorkoutLog, hget, h'] using this

theorem memLogStep_completed (s : MemLogState) (op : LogOp) (id : Nat) (log : WorkoutLog)
    (hinv : ∀ kv ∈ s.logs, kv.1 < s.counter)
    (hget : mget s.logs id = some log) (hc : log.completed = true) :
    ∃ log', mget (memLogStep s op).logs id = some log' ∧ log'.completed = true := by
  cases op with
  | create ins =>
      obtain ⟨kv0, hkv0, hk0, -⟩ := mget_some_mem s.logs id log hget
      have hlt : id < s.counter := hk0 ▸ hinv kv0 hkv0
      refine ⟨log, ?_, hc⟩
      simpa [memLogStep, memCreateWorkoutLog] using
        (mget_mset_ne s.logs s.counter id _ (Nat.ne_of_lt hlt)).trans hget
  | complete id' =>
      by_cases hid : id' = id
      · subst hid
        rw [memLogStep, memCompleteWorkoutLog, hget]
        exact ⟨{ log with completed := true }, mget_mset_eq _ _ _, rfl⟩
      · cases hget' : mget s.logs id' with
        | none => exact ⟨log, by simpa [memLogStep, memCompleteWorkoutLog, hget'] using hget, hc⟩
        | some log2 =>
            refine ⟨log, ?_, hc⟩
            rw [memLogStep, memCompleteWorkoutLog, hget']
            simpa using (mget_mset_ne s.logs id' id _ (fun hh => hid hh.symm)).trans hget

theorem memLogFold_completed :
    ∀ (post : List LogOp) (s : MemLogState) (id : Nat) (log : WorkoutLog),
      (∀ kv ∈ s.logs, kv.1 < s.counter) →
      mget s.logs id = some log → log.completed = true →
      ∃ log', mget (post.foldl memLogStep s).logs id = some log' ∧ log'.completed = true := by
  intro post
  induction post with
  | nil => intro s id log _ hget hc; exact ⟨log, hget, hc⟩
  | cons op rest ih =>
      intro s id log hinv hget hc
      obtain ⟨log1, hget1, hc1⟩ := memLogStep_completed s op id log hinv hget hc
      exact ih (memLogStep s op) id log1 (memLogStep_keysBelow s op hinv) hget1 hc1

theorem memLogRun_keysBelow (ops : List LogOp) :
    ∀ kv ∈ (memLogRun ops).logs, kv.1 < (memLogRun ops).counter := by
  rw [memLogRun]
  generalize hinit : memLogInit = s0
  have h0 : ∀ kv ∈ s0.logs, kv.1 < s0.counter := by
    rw [← hinit]; intro kv hkv; cases hkv
  clear hinit
  induction ops generalizing s0 with
  | nil => exact h0
  | cons op rest ih => exact ih _ (memLogStep_keysBelow s0 op h0)

theorem sqLogStep_idsBelow (s : SqLogState) (op : LogOp)
    (h : ∀ r ∈ s.rows, r.id < s.nextId) :
    ∀ r ∈ (sqLogStep s op).rows, r.id < (sqLogStep s op).nextId := by
  cases op with
  | create ins =>
      intro r hr
      rcases List.mem_append.mp hr with h' | h'
      · exact Nat.lt_succ_of_lt (h r h')
      · rcases List.mem_singleton.mp h' with rfl
        exact Nat.lt_succ_self _
  | complete id =>
      intro r hr
      simp only [sqLogStep, sqCompleteWorkoutLog, List.mem_map] at hr
      obtain ⟨r0, hr0, rfl⟩ := hr
      by_cases h0 : r0.id = id <;> simpa [h0] using h r0 hr0

theorem sqLogStep_completed (s : SqLogState) (op : LogOp) (id : Nat)
    (hinv : ∀ r ∈ s.rows, r.id < s.nextId)
    (hex : ∃ r ∈ s.rows, r.id = id)
    (hall : ∀ r ∈ s.rows, r.id = id → r.completed = true) :
    (∃ r ∈ (sqLogStep s op).rows, r.id = id) ∧
      (∀ r ∈ (sqLogStep s op).rows, r.id = id → r.completed = true) := by
  cases op with
  | create ins =>
      obtain ⟨r0, hr0, hid0⟩ := hex
      have hlt : id < s.nextId := hid0 ▸ hinv r0 hr0
      constructor
      · exact ⟨r0, List.mem_append_left _ hr0, hid0⟩
      · intro r hr hid
        rcases List.mem_append.mp hr with h' | h'
        · exact hall r h' hid
        · rcases List.mem_singleton.mp h' with rfl
          exact absurd hid (by simp [sqLogStep, sqCreateWorkoutLog]; omega)
  | complete id' =>
      constructor
      · obtain ⟨r0, hr0, hid0⟩ := hex
        refine ⟨if r0.id = id' then { r0 with completed := true } else r0, ?_, ?_⟩
        · exact List.mem_map.mpr ⟨r0, hr0, rfl⟩
        · by_cases h0 : r0.id = id'
          · rw [if_pos h0]; exact hid0
          · rw [if_neg h0]; exact hid0
      · intro r hr hid
        simp only [sqLogStep, sqCompleteWorkoutLog, List.mem_map] at hr
        obtain ⟨r0, hr0, rfl⟩ := hr
        by_cases h0 : r0.id = id'
        · simp [h0]
        · simp only [if_neg h0]
          simp only [if_neg h0] at hid
          exact hall r0 hr0 hid

theorem sqLogFold_completed :
    ∀ (post : List LogOp) (s : SqLogState) (id : Nat),
      (∀ r ∈ s.rows, r.id < s.nextId) →
      (∃ r ∈ s.rows, r.id = id) →
      (∀ r ∈ s.rows, r.id = id → r.completed = true) →
      ∀ r ∈ (post.foldl sqLogStep s).rows, r.id = id → r.completed = true := by
  intro post
  induction post with
  | nil => intro s id _ _ hall; exact hall
  | cons op rest ih =>
      intro s id hinv hex hall
      obtain ⟨hex', hall'⟩ := sqLogStep_completed s op id hinv hex hall
      exact ih (sqLogStep s op) id (sqLogStep_idsBelow s op hinv) hex' hall'

theorem sqLogRun_idsBelow (ops : List LogOp) :
    ∀ r ∈ (sqLogRun ops).rows, r.id < (sqLogRun ops).nextId := by
  rw [sqLogRun]
  generalize hinit : sqLogInit = s0
  have h0 : ∀ r ∈ s0.rows, r.id < s0.nextId := by
    rw [← hinit]; intro r hr; cases hr
  clear hinit
  induction ops generalizing s0 with
  | nil => exact h0
  | cons op rest ih => exact ih _ (sqLogStep_idsBelow s0 op h0)

/-- C6: once a workout log's `completed` flag is `true`, no subsequent
sequence of facade operations on the log store (`createWorkoutLog`,
`completeWorkoutLog` — the only writers the facade exposes) ever yields a
state in which that log's flag is `false` again, in either the in-memory or
the SQL-backed implementation. -/
theorem workoutLog_completed_one_way :
    (∀ (pre post : List LogOp) (id : Nat) (log : WorkoutLog),
        mget (memLogRun pre).logs id = some log → log.completed = true →
        ∀ log', mget (memLogRun (pre ++ post)).logs id = some log' →
          log'.completed = true) ∧
    (∀ (pre post : List LogOp) (id : Nat),
        (∃ r ∈ (sqLogRun pre).rows, r.id = id) →
        (∀ r ∈ (sqLogRun pre).rows, r.id = id → r.completed = true) →
        ∀ r ∈ (sqLogRun (pre ++ post)).rows, r.id = id → r.completed = true) := by
  constructor
  · intro pre post id log hget hc log' hget'
    have hrun : memLogRun (pre ++ post) = post.foldl memLogStep (memLogRun pre) := by
      rw [memLogRun, memLogRun, List.foldl_append]
    obtain ⟨log'', hget'', hc''⟩ :=
      memLogFold_completed post (memLogRun pre) id log (memLogRun_keysBelow pre) hget hc
    rw [hrun, hget''] at hget'
    cases hget'
    exact hc''
  · intro pre post id hex hall r hr hid
    have hrun : sqLogRun (pre ++ post) = post.foldl sqLogStep (sqLogRun pre) := by
      rw [sqLogRun, sqLogRun, List.foldl_append]
    refine sqLogFold_completed post (sqLogRun pre) id (sqLogRun_idsBelow pre) hex hall r ?_ hid
    rw [← hrun]; exact hr

/-- Witness for C6: log 1 is created and completed, then a second log is
created; applying the theorem at the resulting concrete states (hypotheses
discharged by evaluation) shows the flag of log 1 is still `true`. -/
theorem workoutLog_completed_one_way_witness :
    (WorkoutLog.completed ⟨1, 1, 1, 10, true⟩) = true ∧
    (WorkoutLog.completed ⟨1, 1, 1, 10, true⟩) = true :=
  ⟨workoutLog_completed_one_way.1
      [.create ⟨1, 1, 10, some false⟩, .complete 1] [.create ⟨1, 1, 20, none⟩] 1
      ⟨1, 1, 1, 10, true⟩ (by decide) (by decide) ⟨1, 1, 1, 10, true⟩ (by decide),
   workoutLog_completed_one_way.2
      [.create ⟨1, 1, 10, some false⟩, .complete 1] [.create ⟨1, 1, 20, none⟩] 1
      ⟨⟨1, 1, 1, 10, true⟩, by decide, by decide⟩ (by decide)
      ⟨1, 1, 1, 10, true⟩ (by decide) (by decide)⟩

/-! ### C1 — the change-from-previous computation -/

theorem withChange_map_m : ∀ l : List Measurement, (withChange l).map (·.m) = l
  | [] => rfl
  | [_] => rfl
  | m :: next :: rest => by
      show (⟨m, some (m.value - next.value)⟩ :: withChange (next :: rest)).map (·.m) =
        m :: next :: rest
      rw [List.map_cons, withChange_map_m (next :: rest)]

theorem mem_withChange_type {l : List Measurement} {r : MeasurementWithChange}
    (h : r ∈ withChange l) : r.m ∈ l := by
  rw [← withChange_map_m l]
  exact List.mem_map.mpr ⟨r, h, rfl⟩

theorem mem_dedupKeys : ∀ (l : List String) (s : String), s ∈ dedupKeys l ↔ s ∈ l := by
  intro l
  induction l with
  | nil => intro s; rfl
  | cons t rest ih =>
      intro s
      by_cases hs : s = t
      · subst hs; simp [dedupKeys]
      · simp only [dedupKeys, List.mem_cons, List.mem_filter]
        constructor
        · rintro (rfl | ⟨h1, -⟩)
          · exact Or.inl rfl
          · exact Or.inr ((ih s).mp h1)
        · rintro (rfl | h1)
          · exact Or.inl rfl
          · exact Or.inr ⟨(ih s).mpr h1, by simpa using hs⟩

theorem nodup_dedupKeys : ∀ l : List String, (dedupKeys l).Nodup := by
  intro l
  induction l with
  | nil => exact List.nodup_nil
  | cons t rest ih =>
      rw [dedupKeys, List.nodup_cons]
      refine ⟨fun hmem => ?_, ih.filter _⟩
      have := (List.mem_filter.mp hmem).2
      simp at this

theorem head_group_filter (ms : List Measurement) (t k : String) :
    (withChange (sortByDateDesc (ms.filter (fun m => decide (m.type = k))))).filter
      (fun r => decide (r.m.type = t)) =
    if k = t then withChange (sortByDateDesc (ms.filter (fun m => decide (m.type = k))))
    else [] := by
  by_cases hk : k = t
  · rw [if_pos hk]
    refine List.filter_eq_self.mpr (fun r hr => ?_)
    have h1 := mem_withChange_type hr
    rw [sortByDateDesc, List.mem_insertionSort] at h1
    have h2 := (List.mem_filter.mp h1).2
    simp only [decide_eq_true_eq] at h2 ⊢
    rw [h2, hk]
  · rw [if_neg hk]
    refine List.filter_eq_nil_iff.mpr (fun r hr => ?_)
    have h1 := mem_withChange_type hr
    rw [sortByDateDesc, List.mem_insertionSort] at h1
    have h2 := (List.mem_filter.mp h1).2
    simp only [decide_eq_true_eq] at h2 ⊢
    rw [h2]
    exact hk

theorem flatMap_groups_filter (ms : List Measurement) (t : String) :
    ∀ ks : List String, ks.Nodup →
      ((ks.map (fun k => (k, ms.filter (fun m => decide (m.type = k))))).flatMap
          (fun g => withChange (sortByDateDesc g.2))).filter
        (fun r => decide (r.m.type = t)) =
      if t ∈ ks then
        withChange (sortByDateDesc (ms.filter (fun m => decide (m.type = t))))
      else [] := by
  intro ks
  induction ks with
  | nil => intro _; rfl
  | cons k rest ih =>
      intro hnodup
      rw [List.nodup_cons] at hnodup
      simp only [List.map_cons, List.flatMap_cons, List.filter_append]
      rw [ih hnodup.2, head_group_filter ms t k]
      have hnotmem : ¬(k = t) → t ∉ rest → t ∉ k :: rest := by
        intro hk hmem hc
        rcases List.mem_cons.mp hc with rfl | hc'
        · exact hk rfl
        · exact hmem hc'
      by_cases hk : k = t
      · subst hk
        rw [if_pos rfl, if_neg hnodup.1, if_pos (List.mem_cons_self k rest),
          List.append_nil]
      · rw [if_neg hk, List.nil_append]
        by_cases hmem : t ∈ rest
        · rw [if_pos hmem, if_pos (List.mem_cons_of_mem _ hmem)]
        · rw [if_neg hmem, if_neg (hnotmem hk hmem)]

theorem grouped_filter (ms : List Measurement) (t : String) :
    ((groupByType ms).flatMap (fun g => withChange (sortByDateDesc g.2))).filter
      (fun r => decide (r.m.type = t)) =
    if t ∈ ms.map (·.type) then
      withChange (sortByDateDesc (ms.filter (fun m => decide (m.type = t))))
    else [] := by
  rw [groupByType, flatMap_groups_filter ms t _ (nodup_dedupKeys _)]
  by_cases hmem : t ∈ ms.map (·.type)
  · rw [if_pos ((mem_dedupKeys _ _).mpr hmem), if_pos hmem]
  · rw [if_neg (fun h => hmem ((mem_dedupKeys _ _).mp h)), if_neg hmem]

/-- The two-record store that exhibits the `MemStorage` defect: one weight
record (older) and one bicep record (newer), same user. -/
def weightMeasurement : Measurement := ⟨1, 1, "weight", 80, "kg", 100⟩

def bicepMeasurement : Measurement := ⟨2, 1, "bicep", 30, "cm", 200⟩

def newerBicepMeasurement : Measurement := ⟨3, 1, "bicep", 33, "cm", 300⟩

def mixedStore : MMap Measurement := [(1, weightMeasurement), (2, bicepMeasurement)]

/-- C1 (code bug): the grouped implementation shared by `SQLiteStorage` and
`DatabaseStorage` computes change per category — the records of any type `t`
in its output are exactly the adjacent-difference augmentation of that type's
records sorted newest first (first clause, as a permutation since the final
output is re-sorted by date); the second clause pins the augmentation down:
each position gets its value minus the next-older one's and the oldest gets
none.  `MemStorage.getMeasurementsWithChange`, by contrast, never groups: at
the concrete mixed store its only bicep record — the sole record of that
category, whose change must be absent — is assigned the cross-category change
30 - 80 = -50 against the weight record, while the grouped implementation
assigns both records no change (third clause). -/
theorem measurementsWithChange_per_category :
    (∀ (table : List Measurement) (u : Nat) (ty : Option String) (t : String),
        ((getMeasurementsWithChangeGrouped table u ty).filter
            (fun r => decide (r.m.type = t))).Perm
          (withChange (sortByDateDesc
            ((sqGetMeasurements table u ty).filter (fun m => decide (m.type = t)))))) ∧
    (∀ (l : List Measurement) (i : Nat),
        (i + 1 < l.length → ∃ a b, l[i]? = some a ∧ l[i + 1]? = some b ∧
          (withChange l)[i]? = some ⟨a, some (a.value - b.value)⟩) ∧
        (i + 1 = l.length → ∃ a, l[i]? = some a ∧ (withChange l)[i]? = some ⟨a, none⟩)) ∧
    (memGetMeasurementsWithChange mixedStore 1 none =
        [⟨bicepMeasurement, some (-50)⟩, ⟨weightMeasurement, none⟩] ∧
      getMeasurementsWithChangeGrouped [weightMeasurement, bicepMeasurement] 1 none =
        [⟨bicepMeasurement, none⟩, ⟨weightMeasurement, none⟩]) := by
  refine ⟨?_, ?_, by decide, by decide⟩
  · intro table u ty t
    have hperm : ((getMeasurementsWithChangeGrouped table u ty).filter
        (fun r => decide (r.m.type = t))).Perm
        (((groupByType (sqGetMeasurements table u ty)).flatMap
            (fun g => withChange (sortByDateDesc g.2))).filter
          (fun r => decide (r.m.type = t))) := by
      unfold getMeasurementsWithChangeGrouped sortWCByDateDesc
      exact (List.perm_insertionSort wcDateGE _).filter _
    refine hperm.trans ?_
    rw [grouped_filter]
    by_cases hmem : t ∈ (sqGetMeasurements table u ty).map (·.type)
    · rw [if_pos hmem]
    · rw [if_neg hmem]
      have hnil : (sqGetMeasurements table u ty).filter
          (fun m => decide (m.type = t)) = [] := by
        refine List.filter_eq_nil_iff.mpr (fun m hm => ?_)
        simp only [decide_eq_true_eq]
        intro ht
        exact hmem (List.mem_map.mpr ⟨m, hm, ht⟩)
      rw [hnil]
      exact List.Perm.refl _
  · intro l
    induction l with
    | nil =>
        intro i
        refine ⟨fun h => ?_, fun h => ?_⟩ <;> simp at h
    | cons m rest ih =>
        intro i
        cases rest with
        | nil =>
            refine ⟨fun h => ?_, fun h => ?_⟩
            · simp only [List.length_cons, List.length_nil] at h
              omega
            · simp only [List.length_cons, List.length_nil] at h
              obtain rfl : i = 0 := by omega
              exact ⟨m, by simp, by simp [withChange]⟩
        | cons next rest2 =>
            have hwc : withChange (m :: next :: rest2) =
                ⟨m, some (m.value - next.value)⟩ :: withChange (next :: rest2) := rfl
            cases i with
            | zero =>
                refine ⟨fun _ => ⟨m, next, by simp, by simp, ?_⟩, fun h => ?_⟩
                · rw [hwc]; simp
                · simp only [List.length_cons] at h
                  omega
            | succ j =>
                refine ⟨fun h => ?_, fun h => ?_⟩
                · obtain ⟨a, b, ha, hb, hj⟩ :=
                    (ih j).1 (by simpa using Nat.lt_of_succ_lt_succ h)
                  refine ⟨a, b, by simpa using ha, by simpa using hb, ?_⟩
                  rw [hwc]
                  simpa using hj
                · obtain ⟨a, ha, hj⟩ :=
                    (ih j).2 (by simpa [Nat.succ_eq_add_one] using h)
                  refine ⟨a, by simpa using ha, ?_⟩
                  rw [hwc]
                  simpa using hj

/-- Witness for C1: the permutation clause needs no hypothesis; the
index clauses are applied at a concrete two-record bicep history at index 0
(newer record, change present) and index 1 (oldest record, change absent),
hypotheses discharged by evaluation. -/
theorem measurementsWithChange_per_category_witness :
    (∃ a b, ([newerBicepMeasurement, bicepMeasurement] : List Measurement)[0]? = some a ∧
      [newerBicepMeasurement, bicepMeasurement][1]? = some b ∧
      (withChange [newerBicepMeasurement, bicepMeasurement])[0]? =
        some ⟨a, some (a.value - b.value)⟩) ∧
    (∃ a, ([newerBicepMeasurement, bicepMeasurement] : List Measurement)[1]? = some a ∧
      (withChange [newerBicepMeasurement, bicepMeasurement])[1]? = some ⟨a, none⟩) :=
  ⟨(measurementsWithChange_per_category.2.1 [newerBicepMeasurement, bicepMeasurement] 0).1
      (by decide),
   (measurementsWithChange_per_category.2.1 [newerBicepMeasurement, bicepMeasurement] 1).2
      (by decide)⟩

end FitnessTracker
